import Mathlib

/-!
Verification of the truncated stick-breaking Dirichlet-process sampler from
`notebooks/04_dp_basics.ipynb`.

The Python source is:

  def sample(alpha=1., baseMeasure=G, eps=1e-3):
      V = [spst.beta(1,alpha).rvs()]
      C = V.copy()    # We will store both C and V for ease of manipulation
      phi = [baseMeasure.rvs()]
      while 1-np.sum(C)>eps:
          V.append(spst.beta(1,alpha).rvs())
          C.append(V[-1]*np.prod([1-np.array(V[:-1])]))
          phi.append(G.rvs())
      return V, C, phi

Shallow embedding choices:
  * Randomness is made explicit as three draw streams: `vs n` is the n-th
    value returned by `spst.beta(1,alpha).rvs()`, `bs n` the n-th value of
    `baseMeasure.rvs()`, and `gs n` the n-th value of `G.rvs()` for the
    module-level global `G`.  Keeping `bs` and `gs` separate records which
    distribution each location draw comes from; they coincide exactly when
    the caller passes the global `G` as `baseMeasure`.
  * Numbers are exact rationals; the float-tolerance caveats of the spec are
    out of scope, arithmetic identities are proved exactly.
  * The unbounded `while` loop is given a fuel parameter: `none` means the
    loop did not exit within `fuel` body executions.  The loop test is
    checked before any fuel is spent, exactly as a `while` checks its
    condition before each body execution.
  * `alpha` only parametrizes the distribution of the `vs` stream, so it is
    a phantom argument of the embedded sampler, kept for signature fidelity.
-/

namespace DP

/-- One body execution of `while 1-np.sum(C)>eps: ...` plus the loop test,
with `k` the index of the next `rvs()` call on each stream and `fuel`
bounding the number of body executions.  In the source, `V[:-1]` is read
after the append, so it is the pre-append `V`; the embedding multiplies
`vs k` by the product over the pre-append list directly. -/
def sampleLoop (eps : ℚ) (vs gs : ℕ → ℚ) :
    ℕ → ℕ → List ℚ × List ℚ × List ℚ → Option (List ℚ × List ℚ × List ℚ)
  | 0, _, (V, C, phi) =>
      if 1 - C.sum > eps then none else some (V, C, phi)
  | fuel + 1, k, (V, C, phi) =>
      if 1 - C.sum > eps then
        sampleLoop eps vs gs fuel (k + 1)
          (V ++ [vs k],
           C ++ [vs k * ((V.map fun x => 1 - x).prod)],
           phi ++ [gs k])
      else some (V, C, phi)

/-- The sampler `sample(alpha, baseMeasure, eps)`.  Before the loop it draws
`V = [beta.rvs()] = [vs 0]`, sets `C = V.copy()`, and draws
`phi = [baseMeasure.rvs()] = [bs 0]`; the loop then starts with draw index 1. -/
def sample (alpha eps : ℚ) (vs bs gs : ℕ → ℚ) (fuel : ℕ) :
    Option (List ℚ × List ℚ × List ℚ) :=
  sampleLoop eps vs gs fuel 1 ([vs 0], [vs 0], [bs 0])

/-- The list `V` after `t` atoms have been generated: the first `t` beta draws. -/
def Vlist (vs : ℕ → ℚ) (t : ℕ) : List ℚ := (List.range t).map vs

/-- Remaining stick length after `t` breaks: `Π_{i<t} (1 - V[i])`. -/
def remProd (vs : ℕ → ℚ) (t : ℕ) : ℚ := ((Vlist vs t).map fun x => 1 - x).prod

/-- The k-th atom mass `C[k] = V[k] * Π_{i<k} (1 - V[i])`. -/
def Ck (vs : ℕ → ℚ) (k : ℕ) : ℚ := vs k * remProd vs k

/-- The list `C` after `t` atoms have been generated. -/
def Clist (vs : ℕ → ℚ) (t : ℕ) : List ℚ := (List.range t).map (Ck vs)

/-- The list `phi` after `t` atoms: the source draws `phi[0]` from the
`baseMeasure` argument but `phi[k]`, `k ≥ 1`, from the module-level `G`. -/
def philist (bs gs : ℕ → ℚ) (t : ℕ) : List ℚ :=
  (List.range t).map fun k => if k = 0 then bs 0 else gs k

/-- The canonical loop state after `t` atoms. -/
def sbState (vs bs gs : ℕ → ℚ) (t : ℕ) : List ℚ × List ℚ × List ℚ :=
  (Vlist vs t, Clist vs t, philist bs gs t)

lemma Vlist_succ (vs : ℕ → ℚ) (t : ℕ) :
    Vlist vs (t + 1) = Vlist vs t ++ [vs t] := by
  simp [Vlist, List.range_succ]

lemma Clist_succ (vs : ℕ → ℚ) (t : ℕ) :
    Clist vs (t + 1) = Clist vs t ++ [Ck vs t] := by
  simp [Clist, List.range_succ]

lemma philist_succ (bs gs : ℕ → ℚ) (t : ℕ) (ht : 1 ≤ t) :
    philist bs gs (t + 1) = philist bs gs t ++ [gs t] := by
  have : t ≠ 0 := by omega
  simp [philist, List.range_succ, this]

lemma remProd_succ (vs : ℕ → ℚ) (t : ℕ) :
    remProd vs (t + 1) = remProd vs t * (1 - vs t) := by
  simp [remProd, Vlist_succ]

lemma Vlist_length (vs : ℕ → ℚ) (t : ℕ) : (Vlist vs t).length = t := by
  simp [Vlist]

lemma Clist_length (vs : ℕ → ℚ) (t : ℕ) : (Clist vs t).length = t := by
  simp [Clist]

lemma philist_length (bs gs : ℕ → ℚ) (t : ℕ) : (philist bs gs t).length = t := by
  simp [philist]

/-- The total mass after `t` atoms is one minus the remaining stick. -/
lemma Clist_sum (vs : ℕ → ℚ) : ∀ t, (Clist vs t).sum = 1 - remProd vs t := by
  intro t
  induction t with
  | zero => simp [Clist, remProd, Vlist]
  | succ t ih =>
    rw [Clist_succ, List.sum_append, ih, remProd_succ]
    simp [Ck]
    ring

lemma remProd_pos (vs : ℕ → ℚ) (hv : ∀ n, vs n < 1) :
    ∀ t, 0 < remProd vs t := by
  intro t
  induction t with
  | zero => simp [remProd, Vlist]
  | succ t ih =>
    rw [remProd_succ]
    have : 0 < 1 - vs t := by have := hv t; linarith
    positivity

lemma remProd_le_one (vs : ℕ → ℚ) (hv0 : ∀ n, 0 < vs n) (hv1 : ∀ n, vs n < 1) :
    ∀ t, remProd vs t ≤ 1 := by
  intro t
  induction t with
  | zero => simp [remProd, Vlist]
  | succ t ih =>
    rw [remProd_succ]
    have hp := remProd_pos vs hv1 t
    have h0 := hv0 t
    nlinarith

/-- Each step strictly shrinks the remaining stick. -/
lemma remProd_succ_lt (vs : ℕ → ℚ) (hv0 : ∀ n, 0 < vs n) (hv1 : ∀ n, vs n < 1)
    (t : ℕ) : remProd vs (t + 1) < remProd vs t := by
  rw [remProd_succ]
  have hp := remProd_pos vs hv1 t
  have h0 := hv0 t
  nlinarith

/-- Each atom mass is positive. -/
lemma Ck_pos (vs : ℕ → ℚ) (hv0 : ∀ n, 0 < vs n) (hv1 : ∀ n, vs n < 1) (k : ℕ) :
    0 < Ck vs k := by
  have := remProd_pos vs hv1 k
  have := hv0 k
  unfold Ck
  positivity

/-- Each atom mass is at most its stick-breaking weight. -/
lemma Ck_le (vs : ℕ → ℚ) (hv0 : ∀ n, 0 < vs n) (hv1 : ∀ n, vs n < 1) (k : ℕ) :
    Ck vs k ≤ vs k := by
  have h1 := remProd_le_one vs hv0 hv1 k
  have h0 := hv0 k
  have := remProd_pos vs hv1 k
  unfold Ck
  nlinarith

lemma Vlist_getD (vs : ℕ → ℚ) (t k : ℕ) (hk : k < t) :
    (Vlist vs t).getD k 0 = vs k := by
  rw [Vlist, List.getD_eq_getElem?_getD, List.getElem?_map, List.getElem?_range hk]
  rfl

lemma Clist_getD (vs : ℕ → ℚ) (t k : ℕ) (hk : k < t) :
    (Clist vs t).getD k 0 = Ck vs k := by
  rw [Clist, List.getD_eq_getElem?_getD, List.getElem?_map, List.getElem?_range hk]
  rfl

lemma philist_getD (bs gs : ℕ → ℚ) (t k : ℕ) (hk : k < t) :
    (philist bs gs t).getD k 0 = if k = 0 then bs 0 else gs k := by
  rw [philist, List.getD_eq_getElem?_getD, List.getElem?_map, List.getElem?_range hk]
  rfl

lemma Vlist_take (vs : ℕ → ℚ) (t k : ℕ) :
    (Vlist vs t).take k = Vlist vs (min k t) := by
  rw [Vlist, Vlist, ← List.map_take, List.take_range]

lemma Clist_take (vs : ℕ → ℚ) (t k : ℕ) :
    (Clist vs t).take k = Clist vs (min k t) := by
  rw [Clist, Clist, ← List.map_take, List.take_range]

/-- Running the loop from the canonical state with `t ≥ 1` atoms either runs
out of fuel, or returns the canonical state of the first `T ≥ t` at which the
loop test `1 - sum(C) > eps` fails, the test having held at every earlier
stage. -/
lemma sampleLoop_state (eps : ℚ) (vs bs gs : ℕ → ℚ) :
    ∀ fuel t, 1 ≤ t →
      sampleLoop eps vs gs fuel t (sbState vs bs gs t) = none ∨
      ∃ T, t ≤ T ∧
        sampleLoop eps vs gs fuel t (sbState vs bs gs t) = some (sbState vs bs gs T) ∧
        1 - (Clist vs T).sum ≤ eps ∧
        ∀ s, t ≤ s → s < T → eps < 1 - (Clist vs s).sum := by
  intro fuel
  induction fuel with
  | zero =>
    intro t ht
    by_cases hc : eps < 1 - (Clist vs t).sum
    · left
      simp [sampleLoop, sbState, hc]
    · right
      refine ⟨t, le_refl t, ?_, le_of_not_lt hc, fun s hs1 hs2 => absurd (lt_of_le_of_lt hs1 hs2) (lt_irrefl t)⟩
      simp [sampleLoop, sbState, hc]
  | succ fuel ih =>
    intro t ht
    by_cases hc : eps < 1 - (Clist vs t).sum
    · have hstep :
          sampleLoop eps vs gs (fuel + 1) t (sbState vs bs gs t) =
            sampleLoop eps vs gs fuel (t + 1) (sbState vs bs gs (t + 1)) := by
        rw [sbState, sbState, Vlist_succ, Clist_succ, philist_succ bs gs t ht]
        simp only [sampleLoop, hc, if_true]
        rfl
      rcases ih (t + 1) (by omega) with hnone | ⟨T, hT, heq, hstop, hbef⟩
      · left
        rw [hstep]
        exact hnone
      · right
        refine ⟨T, by omega, ?_, hstop, ?_⟩
        · rw [hstep]
          exact heq
        · intro s hs1 hs2
          rcases Nat.eq_or_lt_of_le hs1 with h | h
          · rw [← h]
            exact hc
          · exact hbef s h hs2
    · right
      refine ⟨t, le_refl t, ?_, le_of_not_lt hc, fun s hs1 hs2 => absurd (lt_of_le_of_lt hs1 hs2) (lt_irrefl t)⟩
      simp [sampleLoop, sbState, hc]

/-- `sample` starts the loop in the canonical one-atom state. -/
lemma sample_eq_loop (alpha eps : ℚ) (vs bs gs : ℕ → ℚ) (fuel : ℕ) :
    sample alpha eps vs bs gs fuel =
      sampleLoop eps vs gs fuel 1 (sbState vs bs gs 1) := by
  have hr : List.range 1 = [0] := rfl
  have h1 : Vlist vs 1 = [vs 0] := by simp [Vlist, hr]
  have h2 : Clist vs 1 = [vs 0] := by
    simp [Clist, Ck, remProd, Vlist, hr, List.range_zero]
  have h3 : philist bs gs 1 = [bs 0] := by simp [philist, hr]
  rw [sample, sbState, h1, h2, h3]

/-- Every terminating run of `sample` returns the canonical state of a
stopping index `T ≥ 1`: the loop test fails at `T` and held before `T`. -/
lemma sample_spec (alpha eps : ℚ) (vs bs gs : ℕ → ℚ) (fuel : ℕ)
    (out : List ℚ × List ℚ × List ℚ)
    (h : sample alpha eps vs bs gs fuel = some out) :
    ∃ T, 1 ≤ T ∧ out = sbState vs bs gs T ∧
      1 - (Clist vs T).sum ≤ eps ∧
      ∀ s, 1 ≤ s → s < T → eps < 1 - (Clist vs s).sum := by
  rw [sample_eq_loop] at h
  rcases sampleLoop_state eps vs bs gs fuel 1 (le_refl 1) with hnone | ⟨T, hT, heq, hstop, hbef⟩
  · rw [hnone] at h
    exact absurd h (by simp)
  · rw [heq] at h
    exact ⟨T, hT, (Option.some.inj h).symm, hstop, hbef⟩

/-- If the loop test already fails on the initial one-atom state, `sample`
returns immediately, whatever the fuel. -/
lemma sample_immediate (alpha eps : ℚ) (vs bs gs : ℕ → ℚ) (fuel : ℕ)
    (hc : ¬ 1 - ([vs 0] : List ℚ).sum > eps) :
    sample alpha eps vs bs gs fuel = some ([vs 0], [vs 0], [bs 0]) := by
  cases fuel with
  | zero => rw [sample, sampleLoop, if_neg hc]
  | succ fuel => rw [sample, sampleLoop, if_neg hc]

/-- Splits a returned triple into its canonical components. -/
lemma sample_components (alpha eps : ℚ) (vs bs gs : ℕ → ℚ) (fuel : ℕ)
    (V C phi : List ℚ) (h : sample alpha eps vs bs gs fuel = some (V, C, phi)) :
    ∃ T, 1 ≤ T ∧ V = Vlist vs T ∧ C = Clist vs T ∧ phi = philist bs gs T ∧
      1 - (Clist vs T).sum ≤ eps ∧
      ∀ s, 1 ≤ s → s < T → eps < 1 - (Clist vs s).sum := by
  obtain ⟨T, hT, hout, hstop, hbef⟩ := sample_spec alpha eps vs bs gs fuel (V, C, phi) h
  rw [sbState, Prod.mk.injEq, Prod.mk.injEq] at hout
  exact ⟨T, hT, hout.1, hout.2.1, hout.2.2, hstop, hbef⟩

/-- C1, counterexample: with the valid inputs α = 1 and ε = 1/2 and every
Beta draw equal to 1/2 (a value in (0,1)), the sampler terminates returning
C = [1/2], and 1 − sum(C) = 1/2 is NOT strictly below ε.  The loop
`while 1-np.sum(C)>eps` exits as soon as 1 − sum(C) ≤ ε, so only the
non-strict bound is guaranteed. -/
theorem C1_strict_mass_bound_counterexample :
    (0 : ℚ) < 1 ∧ (0 : ℚ) < 1 / 2 ∧ (1 : ℚ) / 2 < 1 ∧
    sample 1 (1 / 2) (fun _ => (1 : ℚ) / 2) (fun _ => 0) (fun _ => 0) 5 =
      some ([(1 : ℚ) / 2], [(1 : ℚ) / 2], [(0 : ℚ)]) ∧
    ¬ (1 - ([(1 : ℚ) / 2] : List ℚ).sum < 1 / 2) := by
  refine ⟨by norm_num, by norm_num, by norm_num, ?_, by norm_num⟩
  norm_num [sample, sampleLoop]

/-- C1, amended: every triple returned by a terminating run satisfies the
non-strict mass bound 1 − sum(C) ≤ ε. -/
theorem C1_mass_bound_amended (alpha eps : ℚ) (vs bs gs : ℕ → ℚ) (fuel : ℕ)
    (out : List ℚ × List ℚ × List ℚ)
    (h : sample alpha eps vs bs gs fuel = some out) :
    1 - out.2.1.sum ≤ eps := by
  obtain ⟨T, -, rfl, hstop, -⟩ := sample_spec alpha eps vs bs gs fuel out h
  simpa [sbState] using hstop

/-- Witness for C1, amended, at α = 1, ε = 1/2, all Beta draws 1/2. -/
theorem C1_mass_bound_amended_witness :
    1 - (([(1 : ℚ) / 2], [(1 : ℚ) / 2], [(0 : ℚ)]) :
        List ℚ × List ℚ × List ℚ).2.1.sum ≤ 1 / 2 :=
  C1_mass_bound_amended 1 (1 / 2) (fun _ => 1 / 2) (fun _ => 0) (fun _ => 0) 5 _
    (by norm_num [sample, sampleLoop])

/-- C2: the source draws `phi[0]` from the `baseMeasure` argument but every
later atom location from the module-level global `G` (`phi.append(G.rvs())`).
With the `baseMeasure` stream constantly 5 and the global-`G` stream
constantly 7 (so `baseMeasure` is a different distribution from `G`), a run
with two atoms returns φ = [5, 7]: the second location is the value of the
global-`G` stream, not of the `baseMeasure` stream. -/
theorem C2_second_atom_from_global_G :
    sample 1 (1 / 4) (fun _ => (1 : ℚ) / 2) (fun _ => 5) (fun _ => 7) 5 =
      some ([(1 : ℚ) / 2, 1 / 2], [(1 : ℚ) / 2, 1 / 4], [(5 : ℚ), 7]) ∧
    ([(5 : ℚ), 7] : List ℚ).getD 1 0 = 7 ∧ (7 : ℚ) ≠ 5 := by
  refine ⟨?_, by norm_num, by norm_num⟩
  norm_num [sample, sampleLoop]

/-- C3, counterexample: ε = 2 lies outside (0,1), yet the sampler performs no
validation: it consumes the first Beta draw (1/2, visible in the returned V)
and the first base-measure draw, and returns a numeric triple instead of
signaling an invalid-argument error. -/
theorem C3_no_eager_validation_counterexample :
    ¬ ((0 : ℚ) < 2 ∧ (2 : ℚ) < 1) ∧
    sample 1 2 (fun _ => (1 : ℚ) / 2) (fun _ => 9) (fun _ => 9) 5 =
      some ([(1 : ℚ) / 2], [(1 : ℚ) / 2], [(9 : ℚ)]) := by
  refine ⟨by norm_num, ?_⟩
  norm_num [sample, sampleLoop]

/-- C3, amended: the sampler validates nothing.  Even with both parameters
invalid (α ≤ 0 and ε ≥ 1), it enters the sampling phase, consumes the first
Beta and base-measure draws, and returns them as a numeric one-atom triple;
no error is signaled.  (The NaN values scipy would produce for α ≤ 0 are
outside this exact-arithmetic embedding; α does not otherwise influence the
control flow.) -/
theorem C3_no_validation_amended (alpha eps : ℚ) (vs bs gs : ℕ → ℚ) (fuel : ℕ)
    (ha : alpha ≤ 0) (he : 1 ≤ eps) (hv : 0 < vs 0) :
    sample alpha eps vs bs gs fuel = some ([vs 0], [vs 0], [bs 0]) := by
  apply sample_immediate
  have hsum : ([vs 0] : List ℚ).sum = vs 0 := by simp
  rw [hsum]
  exact not_lt.mpr (by linarith)

/-- Witness for C3, amended, at α = −1, ε = 2, first Beta draw 1/2. -/
theorem C3_no_validation_amended_witness :
    sample (-1) 2 (fun _ => (1 : ℚ) / 2) (fun _ => 9) (fun _ => 9) 5 =
      some ([(1 : ℚ) / 2], [(1 : ℚ) / 2], [(9 : ℚ)]) := by
  have h := C3_no_validation_amended (-1) 2 (fun _ => (1 : ℚ) / 2) (fun _ => 9)
    (fun _ => 9) 5 (by norm_num) (by norm_num) (by norm_num)
  simpa using h

/-- C4: every returned mass decomposes as
`C[k] = V[k] * Π_{i<k} (1 − V[i])`, and in particular `C[0] = V[0]`. -/
theorem C4_weight_decomposition (alpha eps : ℚ) (vs bs gs : ℕ → ℚ) (fuel : ℕ)
    (V C phi : List ℚ) (h : sample alpha eps vs bs gs fuel = some (V, C, phi)) :
    C.getD 0 0 = V.getD 0 0 ∧
    ∀ k, k < C.length →
      C.getD k 0 = V.getD k 0 * ((V.take k).map fun x => 1 - x).prod := by
  obtain ⟨T, hT, hV, hC, hphi, -, -⟩ :=
    sample_components alpha eps vs bs gs fuel V C phi h
  subst hV hC hphi
  constructor
  · rw [Clist_getD vs T 0 (by omega), Vlist_getD vs T 0 (by omega)]
    simp [Ck, remProd, Vlist]
  · intro k hk
    rw [Clist_length] at hk
    rw [Clist_getD vs T k hk, Vlist_getD vs T k hk, Vlist_take]
    have hmin : min k T = k := by omega
    rw [hmin]
    rfl

/-- Witness for C4 on a two-atom run: V = [1/2, 1/2], C = [1/2, 1/4]. -/
theorem C4_weight_decomposition_witness :
    ([(1 : ℚ) / 2, 1 / 4] : List ℚ).getD 0 0 =
      ([(1 : ℚ) / 2, 1 / 2] : List ℚ).getD 0 0 ∧
    ∀ k, k < ([(1 : ℚ) / 2, 1 / 4] : List ℚ).length →
      ([(1 : ℚ) / 2, 1 / 4] : List ℚ).getD k 0 =
        ([(1 : ℚ) / 2, 1 / 2] : List ℚ).getD k 0 *
          ((([(1 : ℚ) / 2, 1 / 2] : List ℚ).take k).map fun x => 1 - x).prod :=
  C4_weight_decomposition 1 (1 / 4) (fun _ => 1 / 2) (fun _ => 5) (fun _ => 7) 5
    [(1 : ℚ) / 2, 1 / 2] [(1 : ℚ) / 2, 1 / 4] [(5 : ℚ), 7]
    (by norm_num [sample, sampleLoop])

/-- C5: when every Beta draw lies in (0,1), every returned `V[k]` is in
(0,1), every `C[k]` is in (0,1) with `C[k] ≤ V[k]`, the prefix sums of `C`
are strictly increasing, and every prefix sum is at most 1. -/
theorem C5_range_invariants (alpha eps : ℚ) (vs bs gs : ℕ → ℚ) (fuel : ℕ)
    (V C phi : List ℚ) (hv : ∀ n, 0 < vs n ∧ vs n < 1)
    (h : sample alpha eps vs bs gs fuel = some (V, C, phi)) :
    (∀ k, k < V.length → 0 < V.getD k 0 ∧ V.getD k 0 < 1) ∧
    (∀ k, k < C.length → 0 < C.getD k 0 ∧ C.getD k 0 < 1 ∧
      C.getD k 0 ≤ V.getD k 0) ∧
    (∀ k, k + 1 ≤ C.length → (C.take k).sum < (C.take (k + 1)).sum) ∧
    (∀ k, (C.take k).sum ≤ 1) := by
  have hv0 : ∀ n, 0 < vs n := fun n => (hv n).1
  have hv1 : ∀ n, vs n < 1 := fun n => (hv n).2
  obtain ⟨T, hT, hV, hC, hphi, -, -⟩ :=
    sample_components alpha eps vs bs gs fuel V C phi h
  subst hV hC hphi
  refine ⟨?_, ?_, ?_, ?_⟩
  · intro k hk
    rw [Vlist_length] at hk
    rw [Vlist_getD vs T k hk]
    exact hv k
  · intro k hk
    rw [Clist_length] at hk
    rw [Clist_getD vs T k hk, Vlist_getD vs T k hk]
    exact ⟨Ck_pos vs hv0 hv1 k,
      lt_of_le_of_lt (Ck_le vs hv0 hv1 k) (hv1 k), Ck_le vs hv0 hv1 k⟩
  · intro k hk
    rw [Clist_length] at hk
    rw [Clist_take, Clist_take]
    have h1 : min k T = k := by omega
    have h2 : min (k + 1) T = k + 1 := by omega
    rw [h1, h2, Clist_succ, List.sum_append]
    have := Ck_pos vs hv0 hv1 k
    simp only [List.sum_cons, List.sum_nil, add_zero]
    linarith
  · intro k
    rw [Clist_take, Clist_sum]
    have := remProd_pos vs hv1 (min k T)
    linarith

/-- Witness for C5 on a two-atom run with all Beta draws 1/2. -/
theorem C5_range_invariants_witness :
    (∀ k, k < ([(1 : ℚ) / 2, 1 / 2] : List ℚ).length →
      0 < ([(1 : ℚ) / 2, 1 / 2] : List ℚ).getD k 0 ∧
      ([(1 : ℚ) / 2, 1 / 2] : List ℚ).getD k 0 < 1) ∧
    (∀ k, k < ([(1 : ℚ) / 2, 1 / 4] : List ℚ).length →
      0 < ([(1 : ℚ) / 2, 1 / 4] : List ℚ).getD k 0 ∧
      ([(1 : ℚ) / 2, 1 / 4] : List ℚ).getD k 0 < 1 ∧
      ([(1 : ℚ) / 2, 1 / 4] : List ℚ).getD k 0 ≤
        ([(1 : ℚ) / 2, 1 / 2] : List ℚ).getD k 0) ∧
    (∀ k, k + 1 ≤ ([(1 : ℚ) / 2, 1 / 4] : List ℚ).length →
      (([(1 : ℚ) / 2, 1 / 4] : List ℚ).take k).sum <
        (([(1 : ℚ) / 2, 1 / 4] : List ℚ).take (k + 1)).sum) ∧
    (∀ k, (([(1 : ℚ) / 2, 1 / 4] : List ℚ).take k).sum ≤ 1) :=
  C5_range_invariants 1 (1 / 4) (fun _ => 1 / 2) (fun _ => 5) (fun _ => 7) 5
    [(1 : ℚ) / 2, 1 / 2] [(1 : ℚ) / 2, 1 / 4] [(5 : ℚ), 7]
    (fun _ => by norm_num) (by norm_num [sample, sampleLoop])

/-- C6: the three returned sequences always have the same length. -/
theorem C6_length_consistency (alpha eps : ℚ) (vs bs gs : ℕ → ℚ) (fuel : ℕ)
    (V C phi : List ℚ) (h : sample alpha eps vs bs gs fuel = some (V, C, phi)) :
    V.length = C.length ∧ C.length = phi.length := by
  obtain ⟨T, -, hV, hC, hphi, -, -⟩ :=
    sample_components alpha eps vs bs gs fuel V C phi h
  subst hV hC hphi
  rw [Vlist_length, Clist_length, philist_length]
  exact ⟨rfl, rfl⟩

/-- Witness for C6 on a two-atom run. -/
theorem C6_length_consistency_witness :
    ([(1 : ℚ) / 2, 1 / 2] : List ℚ).length =
      ([(1 : ℚ) / 2, 1 / 4] : List ℚ).length ∧
    ([(1 : ℚ) / 2, 1 / 4] : List ℚ).length =
      ([(5 : ℚ), 7] : List ℚ).length :=
  C6_length_consistency 1 (1 / 4) (fun _ => 1 / 2) (fun _ => 5) (fun _ => 7) 5
    [(1 : ℚ) / 2, 1 / 2] [(1 : ℚ) / 2, 1 / 4] [(5 : ℚ), 7]
    (by norm_num [sample, sampleLoop])

/-- C7: with ε ≤ 0 and every Beta draw in (0,1), the loop test
`1 - sum(C) > eps` holds after every prefix, so the exit condition never
holds and the sampler has no terminating run: it returns `none` for every
fuel bound. -/
theorem C7_nonpositive_eps_never_terminates (alpha eps : ℚ) (vs bs gs : ℕ → ℚ)
    (heps : eps ≤ 0) (hv : ∀ n, 0 < vs n ∧ vs n < 1) :
    (∀ t, eps < 1 - (Clist vs t).sum) ∧
    ∀ fuel, sample alpha eps vs bs gs fuel = none := by
  have hv1 : ∀ n, vs n < 1 := fun n => (hv n).2
  have hcond : ∀ t, eps < 1 - (Clist vs t).sum := by
    intro t
    rw [Clist_sum]
    have := remProd_pos vs hv1 t
    linarith
  refine ⟨hcond, ?_⟩
  intro fuel
  rcases sampleLoop_state eps vs bs gs fuel 1 (le_refl 1) with
    hnone | ⟨T, -, -, hstop, -⟩
  · rw [sample_eq_loop]
    exact hnone
  · exact absurd hstop (not_le.mpr (hcond T))

/-- Witness for C7 at ε = 0 with all Beta draws 1/2. -/
theorem C7_nonpositive_eps_never_terminates_witness :
    (∀ t, (0 : ℚ) < 1 - (Clist (fun _ => (1 : ℚ) / 2) t).sum) ∧
    ∀ fuel, sample 1 0 (fun _ => (1 : ℚ) / 2) (fun _ => 0) (fun _ => 0) fuel
      = none := by
  have h := C7_nonpositive_eps_never_terminates 1 0 (fun _ => (1 : ℚ) / 2)
    (fun _ => 0) (fun _ => 0) (by norm_num) (fun _ => by norm_num)
  exact ⟨fun t => by have := h.1 t; linarith, h.2⟩

/-- C8: with ε ≥ 1 and a positive first Beta draw, the sampler terminates at
once — the loop body never runs — and all three returned sequences have
length at most 1 (in fact exactly 1). -/
theorem C8_eps_ge_one_immediate (alpha eps : ℚ) (vs bs gs : ℕ → ℚ) (fuel : ℕ)
    (he : 1 ≤ eps) (hv : 0 < vs 0) :
    ∃ out, sample alpha eps vs bs gs fuel = some out ∧
      out.1.length ≤ 1 ∧ out.2.1.length ≤ 1 ∧ out.2.2.length ≤ 1 := by
  refine ⟨([vs 0], [vs 0], [bs 0]), ?_, by simp, by simp, by simp⟩
  apply sample_immediate
  have hsum : ([vs 0] : List ℚ).sum = vs 0 := by simp
  rw [hsum]
  exact not_lt.mpr (by linarith)

/-- Witness for C8 at ε = 1, first Beta draw 1/2. -/
theorem C8_eps_ge_one_immediate_witness :
    ∃ out, sample 1 1 (fun _ => (1 : ℚ) / 2) (fun _ => 0) (fun _ => 0) 5
        = some out ∧
      out.1.length ≤ 1 ∧ out.2.1.length ≤ 1 ∧ out.2.2.length ≤ 1 :=
  C8_eps_ge_one_immediate 1 1 (fun _ => (1 : ℚ) / 2) (fun _ => 0) (fun _ => 0) 5
    (by norm_num) (by norm_num)

/-- C9: the sampler is a deterministic function of its parameters and its
random source: two calls with the same parameters and the same draw streams
return identical results. -/
theorem C9_deterministic_given_streams (alpha eps : ℚ)
    (vs1 bs1 gs1 vs2 bs2 gs2 : ℕ → ℚ) (fuel : ℕ)
    (h1 : vs1 = vs2) (h2 : bs1 = bs2) (h3 : gs1 = gs2) :
    sample alpha eps vs1 bs1 gs1 fuel = sample alpha eps vs2 bs2 gs2 fuel := by
  subst h1 h2 h3
  rfl

/-- Witness for C9 at concrete equal streams. -/
theorem C9_deterministic_given_streams_witness :
    sample 1 (1 / 2) (fun _ => (1 : ℚ) / 2) (fun _ => 3) (fun _ => 4) 5 =
      sample 1 (1 / 2) (fun _ => (1 : ℚ) / 2) (fun _ => 3) (fun _ => 4) 5 :=
  C9_deterministic_given_streams 1 (1 / 2) _ _ _ _ _ _ 5 rfl rfl rfl

/-- C10: every returned triple is nonempty, the loop test held at every
proper prefix (for 1 ≤ t < T the remaining mass 1 − sum(C[0..t−1]) still
exceeds ε), and it fails at T itself: the sampler stops at the first prefix
whose remaining mass is ε or below. -/
theorem C10_minimal_stopping_time (alpha eps : ℚ) (vs bs gs : ℕ → ℚ) (fuel : ℕ)
    (V C phi : List ℚ) (h : sample alpha eps vs bs gs fuel = some (V, C, phi)) :
    1 ≤ V.length ∧ 1 ≤ C.length ∧ 1 ≤ phi.length ∧
    (∀ t, 1 ≤ t → t < C.length → eps < 1 - (C.take t).sum) ∧
    1 - C.sum ≤ eps := by
  obtain ⟨T, hT, hV, hC, hphi, hstop, hbef⟩ :=
    sample_components alpha eps vs bs gs fuel V C phi h
  subst hV hC hphi
  refine ⟨?_, ?_, ?_, ?_, hstop⟩
  · rw [Vlist_length]
    omega
  · rw [Clist_length]
    omega
  · rw [philist_length]
    omega
  · intro t ht1 ht2
    rw [Clist_length] at ht2
    rw [Clist_take]
    have hmin : min t T = t := by omega
    rw [hmin]
    exact hbef t ht1 ht2

/-- Witness for C10 on a two-atom run with ε = 1/4. -/
theorem C10_minimal_stopping_time_witness :
    1 ≤ ([(1 : ℚ) / 2, 1 / 2] : List ℚ).length ∧
    1 ≤ ([(1 : ℚ) / 2, 1 / 4] : List ℚ).length ∧
    1 ≤ ([(5 : ℚ), 7] : List ℚ).length ∧
    (∀ t, 1 ≤ t → t < ([(1 : ℚ) / 2, 1 / 4] : List ℚ).length →
      (1 : ℚ) / 4 < 1 - (([(1 : ℚ) / 2, 1 / 4] : List ℚ).take t).sum) ∧
    1 - ([(1 : ℚ) / 2, 1 / 4] : List ℚ).sum ≤ 1 / 4 :=
  C10_minimal_stopping_time 1 (1 / 4) (fun _ => 1 / 2) (fun _ => 5)
    (fun _ => 7) 5 [(1 : ℚ) / 2, 1 / 2] [(1 : ℚ) / 2, 1 / 4] [(5 : ℚ), 7]
    (by norm_num [sample, sampleLoop])

end DP
